import Mathlib

/-!
Verification development for the coord-plane-iteration repository.

The embedding below translates the escape-time iteration engine of
coord-plane-iteration.c, the job queue of basic-thread-pool.c and the palette
construction of pixel-coord-plane-iteration.c into Lean.

Modelling conventions, stated once here and referenced from the doc comments:

* The C type long double is modelled by the exact rationals.  All arithmetic
  of the engine is carried out exactly; the structural claims proved below
  (counter bookkeeping, clamping, framing, stripe partitioning) do not depend
  on rounding.  Where a claim does depend on the value of a floating-point
  literal (the zoom factors), the literal is embedded by its exact value as a
  C double constant.
* C pointers into the all_points array are modelled by indices into it, and
  the arrays all_points, scratch and points_not_escaped by lists of a fixed
  length, written with List.set (positional store) and read with List.getD.
  Freshly allocated or not-yet-written cells hold junk in C and are never
  read before being written; the model fills them with default values.
* The machine integers (size_t, uint32_t, uint64_t) are modelled by Nat;
  the quantities involved (pixel counts, iteration counts) stay far below
  any wrap-around in every reachable state considered here, and C size_t
  subtraction x - y only occurs guarded by y <= x, matching Nat subtraction.
* Worker threads are modelled by running the per-thread contexts one after
  another in thread order.  Outside the overlapping-scratch corner case each
  context reads and writes a disjoint stripe of points and a disjoint region
  of scratch, so this is exactly the observable behaviour of any concurrent
  schedule; in the overlap case it realises the schedule in which the
  higher-numbered context writes the shared scratch cell last.
-/

/-- The struct ldxy of coord-plane-iteration.h: one complex value as a pair of
wide reals (long double in C, exact rationals here). -/
structure Ldxy where
  x : ℚ
  y : ℚ
deriving DecidableEq, Repr

/-- The struct iterxy: per-pixel iteration record.  The field escaped holds 0
while the orbit has not escaped and the 1-based iteration index at which it
did; trapped marks points excluded at reset by the Mandelbrot bulb check.
The struct definition itself ships in the header; its fields are exactly the
ones read and written by coord-plane-iteration.c. -/
structure Iterxy where
  seed : Ldxy
  c : Ldxy
  z : Ldxy
  escaped : ℕ
  trapped : Bool
deriving DecidableEq, Repr

instance : Inhabited Iterxy := ⟨⟨⟨0, 0⟩, ⟨0, 0⟩, ⟨0, 0⟩, 0, false⟩⟩

/-- square_complex: the four-product complex squaring of the source. -/
def square_complex (a : Ldxy) : Ldxy :=
  { x := a.x * a.x + a.y * a.y * (-1)
  , y := a.y * a.x + a.x * a.y }

/-- radius_squared. -/
def radius_squared (c : Ldxy) : ℚ :=
  c.x * c.x + c.y * c.y

/-- xy_radius_greater_than_2: the escape predicate, radius squared compared
against the constant 2.0 * 2.0 = 4. -/
def xy_radius_greater_than_2 (xy : Ldxy) : Bool :=
  decide (radius_squared xy > 4)

/-- mandelbrot_in_main_cardioid.  The literal 0.25L is exactly 1/4. -/
def mandelbrot_in_main_cardioid (c : Ldxy) : Bool :=
  let xm := c.x - 1/4
  let y2 := c.y * c.y
  let q := xm * xm + y2
  decide (q * (q + xm) < 1/4 * y2)

/-- mandelbrot_in_period2_bulb.  The literal 0.0625L is exactly 1/16. -/
def mandelbrot_in_period2_bulb (c : Ldxy) : Bool :=
  let x := c.x + 1
  decide (x * x + c.y * c.y < 1/16)

/-- mandelbrot_trapped: the a-priori membership check used at reset. -/
def mandelbrot_trapped (xy : Ldxy) : Bool :=
  mandelbrot_in_main_cardioid xy || mandelbrot_in_period2_bulb xy

/-- iterxy_init_zero. -/
def iterxy_init_zero (xy seed : Ldxy) : Iterxy :=
  { seed := seed, c := xy, z := ⟨0, 0⟩, escaped := 0, trapped := false }

/-- iterxy_init_xy (the Julia initialiser, z starts at the coordinate). -/
def iterxy_init_xy (xy seed : Ldxy) : Iterxy :=
  { seed := seed, c := xy, z := xy, escaped := 0, trapped := false }

/-- iterxy_init_zero_mandlebrot_trapped: init to zero, then mark trapped
points of the Mandelbrot set. -/
def iterxy_init_zero_mandlebrot_trapped (xy seed : Ldxy) : Iterxy :=
  let p := iterxy_init_zero xy seed
  if mandelbrot_trapped p.c then { p with trapped := true } else p

/-- mandlebrot step (spelled as in the source): z := z^2 + c. -/
def mandlebrot (p : Iterxy) : Iterxy :=
  let r := square_complex p.z
  { p with z := ⟨r.x + p.c.x, r.y + p.c.y⟩ }

/-- julia step: z := z^2 + seed. -/
def julia (p : Iterxy) : Iterxy :=
  let r := square_complex p.z
  { p with z := ⟨r.x + p.seed.x, r.y + p.seed.y⟩ }

/-- named_pfunc: one generator variant (init, escape predicate, step).  The
name string is not needed by any claim. -/
structure NamedPfunc where
  pfunc_init : Ldxy → Ldxy → Iterxy
  pfunc_escape : Ldxy → Bool
  pfunc : Iterxy → Iterxy

/-- The pfuncs table of the default build (INCLUDE_ALL_FUNCTIONS not defined):
index 0 Mandelbrot, index 1 Julia.  C indexes a 2-entry array; every caller
uses an index below pfuncs_len. -/
def pfuncs (i : ℕ) : NamedPfunc :=
  if i = 1 then
    { pfunc_init := iterxy_init_xy
    , pfunc_escape := xy_radius_greater_than_2
    , pfunc := julia }
  else
    { pfunc_init := iterxy_init_zero_mandlebrot_trapped
    , pfunc_escape := xy_radius_greater_than_2
    , pfunc := mandlebrot }

/-- pfuncs_len for the default build. -/
def pfuncs_len : ℕ := 2

/-- pfuncs_julia_idx from the header. -/
def pfuncs_julia_idx : ℕ := 1

/-- The struct coordinate_plane.  The field list is reconstructed from the
reads and writes in coord-plane-iteration.c and from the data-model section
of the specification; argv0, the cached thread-pool handle and the
preallocated context array are administrative fields not observable through
any claim and are left out (contexts are modelled as the values produced by
coordinate_plane_iterate_context_init). -/
structure CoordinatePlane where
  win_width : ℕ
  win_height : ℕ
  center : Ldxy
  resolution_x : ℚ
  resolution_y : ℚ
  pfuncs_idx : ℕ
  seed : Ldxy
  halt_after : ℕ
  skip_rounds : ℕ
  num_threads : ℕ
  iteration_count : ℕ
  escaped : ℕ
  trapped : ℕ
  not_escaped : ℕ
  unchanged : ℕ
  all_points : List Iterxy
  points_not_escaped : List ℕ
  scratch : List ℕ
deriving DecidableEq, Repr

instance : Inhabited CoordinatePlane :=
  ⟨{ win_width := 0, win_height := 0, center := ⟨0, 0⟩, resolution_x := 0
   , resolution_y := 0, pfuncs_idx := 0, seed := ⟨0, 0⟩, halt_after := 0
   , skip_rounds := 0, num_threads := 0, iteration_count := 0, escaped := 0
   , trapped := 0, not_escaped := 0, unchanged := 0, all_points := []
   , points_not_escaped := [], scratch := [] }⟩

/-- coordinate_plane_x_min.  The division win_width / 2 is C integer
division on uint32_t. -/
def coordinate_plane_x_min (p : CoordinatePlane) : ℚ :=
  p.center.x - p.resolution_x * ((p.win_width / 2 : ℕ) : ℚ)

/-- coordinate_plane_y_min. -/
def coordinate_plane_y_min (p : CoordinatePlane) : ℚ :=
  p.center.y - p.resolution_y * ((p.win_height / 2 : ℕ) : ℚ)

/-- coordinate_plane_x_max. -/
def coordinate_plane_x_max (p : CoordinatePlane) : ℚ :=
  p.center.x + p.resolution_x * ((p.win_width / 2 : ℕ) : ℚ)

/-- coordinate_plane_y_max. -/
def coordinate_plane_y_max (p : CoordinatePlane) : ℚ :=
  p.center.y + p.resolution_y * ((p.win_height / 2 : ℕ) : ℚ)

/-- The accumulator of the reset point loop: the points written so far (in
row-major order), the live buffer, and the trapped and not_escaped counters. -/
structure ResetAcc where
  all : List Iterxy
  live : List ℕ
  trap : ℕ
  notesc : ℕ

/-- The point computed for one pixel at reset: the coordinate (with the
snap-to-zero of values closer to zero than half a resolution step) passed to
the init function of the selected variant. -/
def resetPoint (x_min y_max rx ry : ℚ) (pfi : Ldxy → Ldxy → Iterxy)
    (seed : Ldxy) (py px : ℕ) : Iterxy :=
  let yv := y_max - (py : ℚ) * ry
  let yv := if |yv| < ry / 2 then 0 else yv
  let xv := x_min + (px : ℚ) * rx
  let xv := if |xv| < rx / 2 then 0 else xv
  pfi ⟨xv, yv⟩ seed

/-- One cell of the reset double loop: init the point of this pixel, then
either count it as trapped or store its index in the live buffer. -/
def resetCell (w : ℕ) (x_min y_max rx ry : ℚ) (pfi : Ldxy → Ldxy → Iterxy)
    (seed : Ldxy) (py px : ℕ) (acc : ResetAcc) : ResetAcc :=
  let i := py * w + px
  let p := resetPoint x_min y_max rx ry pfi seed py px
  if p.trapped then
    { acc with all := acc.all ++ [p], trap := acc.trap + 1 }
  else
    { all := acc.all ++ [p]
    , live := acc.live.set acc.notesc i
    , trap := acc.trap
    , notesc := acc.notesc + 1 }

/-- coordinate_plane_reset.  A non-positive resolution makes the C program
die; the model returns none.  Buffers are reallocated when too small; the
model always takes fresh buffers of the needed size, which is observationally
identical because stale cells are never read (see the header comment). -/
def coordinate_plane_reset (plane : CoordinatePlane)
    (win_width win_height : ℕ) (center : Ldxy)
    (resolution_x resolution_y : ℚ) (pfuncs_idx : ℕ) (seed : Ldxy) :
    Option CoordinatePlane :=
  if ¬ resolution_x > 0 then none
  else if ¬ resolution_y > 0 then none
  else
    let p0 := { plane with
      win_width := win_width, win_height := win_height, center := center
      , resolution_x := resolution_x, resolution_y := resolution_y
      , iteration_count := 0, escaped := 0, trapped := 0, not_escaped := 0
      , pfuncs_idx := pfuncs_idx, seed := seed }
    let needed := win_width * win_height
    let pfi := (pfuncs pfuncs_idx).pfunc_init
    let x_min := coordinate_plane_x_min p0
    let y_max := coordinate_plane_y_max p0
    let acc0 : ResetAcc := ⟨[], List.replicate needed 0, 0, 0⟩
    let fin := (List.range win_height).foldl (fun acc py =>
      (List.range win_width).foldl
        (fun acc px =>
          resetCell win_width x_min y_max resolution_x resolution_y
            pfi seed py px acc) acc) acc0
    some { p0 with
      all_points := fin.all
      , points_not_escaped := fin.live
      , scratch := List.replicate needed 0
      , trapped := fin.trap
      , not_escaped := fin.notesc
      , unchanged := 0 }

/-- coordinate_plane_new: allocate a zeroed plane, store halt_after,
skip_rounds and num_threads, then reset.  The argv0 string and the context
array allocation are not modelled. -/
def coordinate_plane_new (win_width win_height : ℕ) (center : Ldxy)
    (resolution_x resolution_y : ℚ) (pfunc_idx : ℕ) (seed : Ldxy)
    (halt_after skip_rounds num_threads : ℕ) : Option CoordinatePlane :=
  let plane := { (default : CoordinatePlane) with
    halt_after := halt_after, skip_rounds := skip_rounds
    , num_threads := num_threads }
  coordinate_plane_reset plane win_width win_height center
    resolution_x resolution_y pfunc_idx seed

/-- coordinate_plane_resize: derive the new resolutions from the current
spans and reset.  The bool argument is named preserve_ratio in C. -/
def coordinate_plane_resize (p : CoordinatePlane)
    (new_win_width new_win_height : ℕ) (keep_y_span : Bool) :
    Option CoordinatePlane :=
  let x_min := coordinate_plane_x_min p
  let x_max := coordinate_plane_x_max p
  let new_resolution_x := (x_max - x_min) / ((new_win_width : ℚ))
  let new_resolution_y :=
    if keep_y_span then
      (coordinate_plane_y_max p - coordinate_plane_y_min p) /
        ((new_win_height : ℚ))
    else new_resolution_x
  coordinate_plane_reset p new_win_width new_win_height p.center
    new_resolution_x new_resolution_y p.pfuncs_idx p.seed

/-- The exact value of the C double literal 0.8 used by
coordinate_plane_zoom_in: the source writes long double ratio_x = 0.8, a
double constant, whose binary value is 7205759403792794 * 2^(-53), slightly
above 4/5. -/
def zoom_in_ratio : ℚ := 7205759403792794 / 2 ^ 53

/-- The exact value of the C double literal 1.25 used by
coordinate_plane_zoom_out: 5/4 is exactly representable. -/
def zoom_out_ratio : ℚ := 5 / 4

/-- coordinate_plane_zoom_in: multiply both resolutions by the stored 0.8
constant and reset. -/
def coordinate_plane_zoom_in (p : CoordinatePlane) : Option CoordinatePlane :=
  coordinate_plane_reset p p.win_width p.win_height p.center
    (p.resolution_x * zoom_in_ratio) (p.resolution_y * zoom_in_ratio)
    p.pfuncs_idx p.seed

/-- coordinate_plane_zoom_out: multiply both resolutions by the stored 1.25
constant and reset. -/
def coordinate_plane_zoom_out (p : CoordinatePlane) : Option CoordinatePlane :=
  coordinate_plane_reset p p.win_width p.win_height p.center
    (p.resolution_x * zoom_out_ratio) (p.resolution_y * zoom_out_ratio)
    p.pfuncs_idx p.seed

/-- coordinate_plane_pan_left: shift the centre left by an eighth of the x
span and reset. -/
def coordinate_plane_pan_left (p : CoordinatePlane) : Option CoordinatePlane :=
  let x_span := coordinate_plane_x_max p - coordinate_plane_x_min p
  coordinate_plane_reset p p.win_width p.win_height
    ⟨p.center.x - x_span / 8, p.center.y⟩
    p.resolution_x p.resolution_y p.pfuncs_idx p.seed

/-- coordinate_plane_pan_right. -/
def coordinate_plane_pan_right (p : CoordinatePlane) : Option CoordinatePlane :=
  let x_span := coordinate_plane_x_max p - coordinate_plane_x_min p
  coordinate_plane_reset p p.win_width p.win_height
    ⟨p.center.x + x_span / 8, p.center.y⟩
    p.resolution_x p.resolution_y p.pfuncs_idx p.seed

/-- coordinate_plane_pan_up. -/
def coordinate_plane_pan_up (p : CoordinatePlane) : Option CoordinatePlane :=
  let y_span := coordinate_plane_y_max p - coordinate_plane_y_min p
  coordinate_plane_reset p p.win_width p.win_height
    ⟨p.center.x, p.center.y + y_span / 8⟩
    p.resolution_x p.resolution_y p.pfuncs_idx p.seed

/-- coordinate_plane_pan_down. -/
def coordinate_plane_pan_down (p : CoordinatePlane) : Option CoordinatePlane :=
  let y_span := coordinate_plane_y_max p - coordinate_plane_y_min p
  coordinate_plane_reset p p.win_width p.win_height
    ⟨p.center.x, p.center.y - y_span / 8⟩
    p.resolution_x p.resolution_y p.pfuncs_idx p.seed

/-- coordinate_plane_recenter: reset with the coordinate of the clicked
pixel as the new centre. -/
def coordinate_plane_recenter (p : CoordinatePlane) (x y : ℕ) :
    Option CoordinatePlane :=
  let q := p.all_points.getD (p.win_width * y + x) default
  coordinate_plane_reset p p.win_width p.win_height q.c
    p.resolution_x p.resolution_y p.pfuncs_idx p.seed

/-- coordinate_plane_next_function: advance the function index modulo the
table length, swapping centre and seed when moving into or out of the Julia
variant, then reset. -/
def coordinate_plane_next_function (p : CoordinatePlane) :
    Option CoordinatePlane :=
  let old_idx := p.pfuncs_idx
  let new_idx := if 1 + old_idx ≥ pfuncs_len then 0 else 1 + old_idx
  let cs : Ldxy × Ldxy :=
    if new_idx = pfuncs_julia_idx then (p.seed, p.center)
    else if old_idx = pfuncs_julia_idx then (p.seed, p.center)
    else (p.center, p.seed)
  coordinate_plane_reset p p.win_width p.win_height cs.1
    p.resolution_x p.resolution_y new_idx cs.2

/-- coordinate_plane_threads_more (the context-array regrowth is memory
management with no observable effect here). -/
def coordinate_plane_threads_more (p : CoordinatePlane) : CoordinatePlane :=
  { p with num_threads := p.num_threads + 1 }

/-- coordinate_plane_threads_less: decrement with floor 1. -/
def coordinate_plane_threads_less (p : CoordinatePlane) : CoordinatePlane :=
  if p.num_threads > 1 then { p with num_threads := p.num_threads - 1 } else p

/-- The struct coordinate_plane_iterate_context: per-thread view of one
batch.  The field scratch_offset models the pointer ctx->not_escaped, which
points into the shared scratch array at offset * (scratch_len / step_size);
done mirrors the atomic completion flag.  The local counters are written by
coordinate_plane_iterate_with_context. -/
structure IterCtx where
  steps : ℕ
  offset : ℕ
  step_size : ℕ
  local_escaped : ℕ
  local_not_escaped : ℕ
  scratch_offset : ℕ
  done : Bool
deriving DecidableEq, Repr

/-- coordinate_plane_iterate_context_init. -/
def coordinate_plane_iterate_context_init (plane : CoordinatePlane)
    (steps offset step_size : ℕ) : IterCtx :=
  { steps := steps, offset := offset, step_size := step_size
  , local_escaped := 0, local_not_escaped := 0
  , scratch_offset := offset * (plane.scratch.length / step_size)
  , done := false }

/-- The inner per-point loop of coordinate_plane_iterate_with_context:
for i in 0..steps while the point has not escaped, either record the escape
as iteration_count + i + 1 (the escape test runs before the step) or advance
z with the step function.  The first argument counts the remaining loop
iterations, the second is the loop counter i; callers start with
remaining = steps, i = 0. -/
def ipLoop (pesc : Ldxy → Bool) (pf : Iterxy → Iterxy) (it : ℕ) :
    ℕ → ℕ → Iterxy → Iterxy
  | 0, _, p => p
  | rem + 1, i, p =>
    if p.escaped ≠ 0 then p
    else if pesc p.z then { p with escaped := it + i + 1 }
    else ipLoop pesc pf it rem (i + 1) (pf p)

/-- The index sequence of the C loop for (j = offset; j < L; j += W).  The
fuel argument bounds the number of iterations; callers pass fuel = L, which
is enough because j strictly increases (W is at least 1 at every call). -/
def strideIdxList (W : ℕ) : ℕ → ℕ → ℕ → List ℕ
  | 0, _, _ => []
  | fuel + 1, j, L => if j < L then j :: strideIdxList W fuel (j + W) L else []

/-- The mutable state threaded through one context run: the shared point
array, the shared scratch array, and the two local counters. -/
structure CtxRunState where
  all_points : List Iterxy
  scratch : List ℕ
  local_escaped : ℕ
  local_not_escaped : ℕ

/-- One iteration of the context loop body: fetch the live pointer (index),
run the inner loop on the point, store it back, then either bump the local
escape counter or append the survivor to this context's scratch region. -/
def ctxStep (live : List ℕ) (pesc : Ldxy → Bool) (pf : Iterxy → Iterxy)
    (it steps scratch_offset : ℕ) (s : CtxRunState) (j : ℕ) : CtxRunState :=
  let idx := live.getD j 0
  let p := s.all_points.getD idx default
  let p2 := ipLoop pesc pf it steps 0 p
  let ap := s.all_points.set idx p2
  if p2.escaped ≠ 0 then
    { s with all_points := ap, local_escaped := s.local_escaped + 1 }
  else
    { all_points := ap
    , scratch := s.scratch.set (scratch_offset + s.local_not_escaped) idx
    , local_escaped := s.local_escaped
    , local_not_escaped := s.local_not_escaped + 1 }

/-- coordinate_plane_iterate_with_context: zero the local counters, walk the
stripe of live indices, then set the done flag. -/
def coordinate_plane_iterate_with_context (plane : CoordinatePlane)
    (ctx : IterCtx) : CoordinatePlane × IterCtx :=
  let pf := pfuncs plane.pfuncs_idx
  let L := plane.not_escaped
  let init : CtxRunState := ⟨plane.all_points, plane.scratch, 0, 0⟩
  let fin := (strideIdxList ctx.step_size L ctx.offset L).foldl
    (fun s j =>
      ctxStep plane.points_not_escaped pf.pfunc_escape pf.pfunc
        plane.iteration_count ctx.steps ctx.scratch_offset s j) init
  ({ plane with all_points := fin.all_points, scratch := fin.scratch },
   { ctx with local_escaped := fin.local_escaped,
              local_not_escaped := fin.local_not_escaped, done := true })

/-- coordinate_plane_update_from_iterate_context: add the local escape count
to the plane counter and memcpy the context's scratch region (its surviving
pointers) to the live buffer at position not_escaped, advancing the counter. -/
def coordinate_plane_update_from_iterate_context (plane : CoordinatePlane)
    (ctx : IterCtx) : CoordinatePlane :=
  let live := (List.range ctx.local_not_escaped).foldl
    (fun l k =>
      l.set (plane.not_escaped + k) (plane.scratch.getD (ctx.scratch_offset + k) 0))
    plane.points_not_escaped
  { plane with
    escaped := plane.escaped + ctx.local_escaped
    , points_not_escaped := live
    , not_escaped := plane.not_escaped + ctx.local_not_escaped }

/-- coordinate_plane_iterate_single_threaded: one context covering the whole
live list, then rebuild the live buffer from position zero. -/
def coordinate_plane_iterate_single_threaded (plane : CoordinatePlane)
    (steps : ℕ) : CoordinatePlane :=
  let ctx := coordinate_plane_iterate_context_init plane steps 0 1
  let r := coordinate_plane_iterate_with_context plane ctx
  let p2 := { r.1 with not_escaped := 0 }
  coordinate_plane_update_from_iterate_context p2 r.2

/-- One submission of the job loop in
coordinate_plane_iterate_multi_threaded: initialise the context of thread t
and run it against the current shared point and scratch arrays, collecting
the finished context for the merge. -/
def multiPhase (plane : CoordinatePlane) (steps W : ℕ)
    (acc : List Iterxy × List ℕ × List IterCtx) (t : ℕ) :
    List Iterxy × List ℕ × List IterCtx :=
  let ctx := coordinate_plane_iterate_context_init plane steps t W
  let r := coordinate_plane_iterate_with_context
    { plane with all_points := acc.1, scratch := acc.2.1 } ctx
  (r.1.all_points, r.1.scratch, acc.2.2 ++ [r.2])

/-- coordinate_plane_iterate_multi_threaded: with fewer than two threads fall
back to the single-threaded pass; otherwise initialise one context per
thread, run them (the pool bookkeeping and the wait are concurrency plumbing,
see the header comment on linearisation), then merge the contexts in thread
order. -/
def coordinate_plane_iterate_multi_threaded (plane : CoordinatePlane)
    (steps : ℕ) : CoordinatePlane :=
  let W := plane.num_threads
  if W < 2 then coordinate_plane_iterate_single_threaded plane steps
  else
    let fin := (List.range W).foldl (multiPhase plane steps W)
      (plane.all_points, plane.scratch, [])
    let base := { plane with
      all_points := fin.1, scratch := fin.2.1, not_escaped := 0 }
    fin.2.2.foldl coordinate_plane_update_from_iterate_context base

/-- The steps clamp at the top of coordinate_plane_iterate: when halt_after
is set, cap the requested batch to the remaining budget. -/
def coordinate_plane_clamp_steps (plane : CoordinatePlane) (steps : ℕ) : ℕ :=
  if plane.halt_after ≠ 0 then
    let remaining :=
      if plane.iteration_count < plane.halt_after then
        plane.halt_after - plane.iteration_count
      else 0
    if steps > remaining then remaining else steps
  else steps

/-- coordinate_plane_iterate: clamp the batch, skip it entirely when nothing
is to be done, otherwise run the threaded pass, advance iteration_count and
maintain the unchanged counter; return the new plane and the number of newly
escaped points. -/
def coordinate_plane_iterate (plane : CoordinatePlane) (steps0 : ℕ) :
    CoordinatePlane × ℕ :=
  let old_escaped := plane.escaped
  let previous_not_escaped := plane.not_escaped
  let steps := coordinate_plane_clamp_steps plane steps0
  if steps ≠ 0 ∧ plane.not_escaped ≠ 0 then
    let p1 := coordinate_plane_iterate_multi_threaded plane steps
    let p2 := { p1 with iteration_count := p1.iteration_count + steps }
    let p3 :=
      if previous_not_escaped ≠ p2.not_escaped then { p2 with unchanged := 0 }
      else { p2 with unchanged := p2.unchanged + steps }
    (p3, p3.escaped - old_escaped)
  else
    (plane, plane.escaped - old_escaped)

/-- coordinate_plane_escaped: the per-pixel escape count accessor. -/
def coordinate_plane_escaped (p : CoordinatePlane) (x y : ℕ) : ℕ :=
  (p.all_points.getD (y * p.win_width + x) default).escaped

/-- coordinate_plane_escaped_count. -/
def coordinate_plane_escaped_count (p : CoordinatePlane) : ℕ := p.escaped

/-- coordinate_plane_not_escaped_count: the sum of the live counter and the
trapped counter. -/
def coordinate_plane_not_escaped_count (p : CoordinatePlane) : ℕ :=
  p.not_escaped + p.trapped

/-- coordinate_plane_trapped_count. -/
def coordinate_plane_trapped_count (p : CoordinatePlane) : ℕ := p.trapped

/-- The reachable plane states: any successful reset (coordinate_plane_new,
resize, the pans, the zooms, recenter and next-function all delegate to
coordinate_plane_reset, so they are instances of the first constructor), any
number of iterate calls, and the two thread-count adjustments in between. -/
inductive PlaneReachable : CoordinatePlane → Prop
  | reset {plane w h center rx ry idx seed q} :
      coordinate_plane_reset plane w h center rx ry idx seed = some q →
      PlaneReachable q
  | iterate {p : CoordinatePlane} (steps : ℕ) :
      PlaneReachable p → PlaneReachable (coordinate_plane_iterate p steps).1
  | threads_more {p : CoordinatePlane} :
      PlaneReachable p → PlaneReachable (coordinate_plane_threads_more p)
  | threads_less {p : CoordinatePlane} :
      PlaneReachable p → PlaneReachable (coordinate_plane_threads_less p)

/-! ## The worker pool job queue (basic-thread-pool.c) -/

/-- The observable queue state of struct basic_thread_pool: the stop flag,
the FIFO list of queued jobs (a job is an opaque function-argument pair,
modelled by an identifier), the count of running jobs and the worker count.
The mutex and the two condition variables serialise access in C; the
operations below are their effect under the lock. -/
structure BasicThreadPool where
  stop : Bool
  todo_jobs : List ℕ
  num_working : ℕ
  threads_len : ℕ
deriving DecidableEq, Repr

/-- basic_thread_pool_add: allocate a queue node (allocOk models the malloc
outcome; on failure return 1 without touching the queue), then append the
job at the tail under the lock and return 0.  The function does not read the
stop flag.  The lock, broadcast and unlock calls are modelled as succeeding;
their failure would also yield a nonzero return. -/
def basic_thread_pool_add (pool : BasicThreadPool) (job : ℕ)
    (allocOk : Bool) : ℕ × BasicThreadPool :=
  if ¬ allocOk then (1, pool)
  else (0, { pool with todo_jobs := pool.todo_jobs ++ [job] })

/-- basic_thread_pool_size. -/
def basic_thread_pool_size (pool : BasicThreadPool) : ℕ := pool.threads_len

/-- The pool state reached inside basic_thread_pool_stop_and_free once the
stop flag has been raised and the queued jobs have been drained and
discarded, before the workers are joined and the storage is freed (after
which the caller-side pointer is set to NULL and no further call can be made
on this pool). -/
def basic_thread_pool_stop_marked (pool : BasicThreadPool) : BasicThreadPool :=
  { pool with stop := true, todo_jobs := [] }

/-! ## Palette construction (pixel-coord-plane-iteration.c) -/

/-- The indices stored to by grow_palette(palette, len, prefix_black, amount)
after the successful realloc to new_len = amount + len entries: the
black-prefix loop writes i = keep, ..., prefix_black - 1 with keep the old
length, and the gradient loop writes i = max(keep, prefix_black), ...,
new_len - 1.  (The values written, black triples and the long-tail gradient
colours, do not matter to the safety claim.) -/
def growPaletteWriteIdxs (len prefix_black amount : ℕ) : List ℕ :=
  List.range' len (prefix_black - len) ++
    List.range' (max len prefix_black) (amount + len - max len prefix_black)

/-- pixel_buffer_new(window_x, window_y, palette_len, skip_rounds) builds its
palette with grow_palette(NULL, &len0, skip_rounds, palette_len) where the
fresh buffer starts with len0 = 0; these are the palette stores it performs.
No bound on skip_rounds is checked here or by the mains, which pass
palette_len = 1024 and the user-supplied skip_rounds. -/
def pixelBufferNewPaletteWriteIdxs (palette_len skip_rounds : ℕ) : List ℕ :=
  growPaletteWriteIdxs 0 skip_rounds palette_len

/-- The palette length passed by the GUI and CLI mains. -/
def mains_palette_len : ℕ := 1024

/-! ## Generic list lemmas -/

/-- An invariant preserved by every step of a left fold is preserved by the
fold. -/
theorem foldlPreserves {α σ : Type} (P : σ → Prop) (f : σ → α → σ)
    (hf : ∀ s a, P s → P (f s a)) :
    ∀ (l : List α) (s : σ), P s → P (l.foldl f s) := by
  intro l
  induction l with
  | nil => intro s hs; simpa using hs
  | cons a l ih => intro s hs; exact ih (f s a) (hf s a hs)

/-- Reading back through a positional store: the stored value at the stored
index when it is in bounds, the old content elsewhere. -/
theorem getD_set (l : List α) (i j : ℕ) (a d : α) :
    (l.set i a).getD j d = if i = j ∧ j < l.length then a else l.getD j d := by
  induction l generalizing i j with
  | nil => simp
  | cons x xs ih =>
    cases i with
    | zero =>
      cases j with
      | zero => simp
      | succ j => simp
    | succ i =>
      cases j with
      | zero => simp
      | succ j =>
        simp only [List.set, List.getD_cons_succ, List.length_cons, ih]
        by_cases h : i = j ∧ j < xs.length
        · rw [if_pos h, if_pos ⟨congrArg Nat.succ h.1, Nat.succ_lt_succ h.2⟩]
        · rw [if_neg h, if_neg]
          intro hc
          exact h ⟨Nat.succ_injective hc.1, Nat.lt_of_succ_lt_succ hc.2⟩

/-! ## Stripe arithmetic: the loop for (j = offset; j < L; j += W) -/

/-- Length of the stride index list: the stripe starting at j with step W
below the bound L has (L - j + (W - 1)) / W elements (with truncated
subtraction, this also covers j above L). -/
theorem strideIdxList_length (W : ℕ) (hW : 0 < W) :
    ∀ (fuel j L : ℕ), L - j ≤ fuel →
      (strideIdxList W fuel j L).length = (L - j + (W - 1)) / W := by
  intro fuel
  induction fuel with
  | zero =>
    intro j L h
    have hjL : ¬ j < L := by omega
    have h0 : L - j = 0 := by omega
    simp [strideIdxList, h0, Nat.div_eq_of_lt (by omega : W - 1 < W)]
  | succ fuel ih =>
    intro j L h
    by_cases hjL : j < L
    · have hfuel : L - (j + W) ≤ fuel := by omega
      simp only [strideIdxList, if_pos hjL, List.length_cons, ih (j + W) L hfuel]
      by_cases hbig : W ≤ L - j
      · have hnum : L - j + (W - 1) = (L - (j + W) + (W - 1)) + W := by omega
        rw [hnum, Nat.add_div_right _ hW]
      · have h1 : L - (j + W) = 0 := by omega
        have hlo : 1 * W ≤ L - j + (W - 1) := by omega
        have hhi : L - j + (W - 1) < (1 + 1) * W := by omega
        rw [h1, Nat.div_eq_of_lt (by omega : 0 + (W - 1) < W),
          Nat.div_eq_of_lt_le hlo hhi]
    · have h0 : L - j = 0 := by omega
      simp [strideIdxList, hjL, h0,
        Nat.div_eq_of_lt (by omega : W - 1 < W)]

/-- Sums of pointwise sums split. -/
theorem sum_map_add {α : Type} (l : List α) (f g : α → ℕ) :
    (l.map (fun a => f a + g a)).sum = (l.map f).sum + (l.map g).sum := by
  induction l with
  | nil => simp
  | cons a l ih => simp [ih]; omega

/-- Summing the indicator of one value over the range counts it once. -/
theorem sum_indicator (W c : ℕ) (h : c < W) :
    ((List.range W).map (fun t => if t = c then 1 else 0)).sum = 1 := by
  induction W with
  | zero => omega
  | succ W ih =>
    rw [List.range_succ, List.map_append, List.sum_append]
    by_cases hc : c = W
    · subst hc
      have hz : ((List.range c).map (fun t => if t = c then 1 else 0)).sum = 0 := by
        apply List.sum_eq_zero
        intro x hx
        obtain ⟨t, ht, rfl⟩ := List.mem_map.mp hx
        have : t ≠ c := by have := List.mem_range.mp ht; omega
        simp [this]
      simp [hz]
    · have hcW : c < W := by omega
      have hWc : ¬ W = c := fun hcon => hc hcon.symm
      simp [ih hcW, hWc]

/-- One more pixel in the bound adds one stripe element, to the stripe of
residue L mod W. -/
theorem stripe_count_succ (W L t : ℕ) (hW : 0 < W) (ht : t < W) :
    (L + 1 - t + (W - 1)) / W
      = (L - t + (W - 1)) / W + (if t = L % W then 1 else 0) := by
  by_cases hle : t ≤ L
  · have h1 : L + 1 - t + (W - 1) = (L - t + (W - 1)) + 1 := by omega
    rw [h1, Nat.succ_div]
    congr 1
    have h2 : L - t + (W - 1) + 1 = (L - t) + W := by omega
    rw [h2]
    have hiff : W ∣ L - t + W ↔ t = L % W := by
      rw [Nat.dvd_add_self_right]
      constructor
      · intro hd
        have hm : (L - t) % W = 0 := Nat.dvd_iff_mod_eq_zero.mp hd
        have hL : L = (L - t) + t := by omega
        have hmm : L % W = t % W := by
          conv_lhs => rw [hL]
          rw [Nat.add_mod, hm, Nat.zero_add,
            Nat.mod_mod_of_dvd t (dvd_refl W)]
        rw [hmm, Nat.mod_eq_of_lt ht]
      · intro hc
        subst hc
        exact Nat.dvd_sub_mod L
    by_cases hd : t = L % W
    · rw [if_pos hd, if_pos (hiff.mpr hd)]
    · rw [if_neg hd, if_neg (fun hcon => hd (hiff.mp hcon))]
  · have h1 : L + 1 - t = 0 := by omega
    have h2 : L - t = 0 := by omega
    have h3 : t ≠ L % W := by
      have := Nat.mod_le L W
      omega
    rw [h1, h2, if_neg h3]
    simp

/-- The stripes of step W partition the live indices: their lengths sum to
the bound L. -/
theorem stripe_counts_total (W : ℕ) (hW : 0 < W) (L : ℕ) :
    ((List.range W).map (fun t => (L - t + (W - 1)) / W)).sum = L := by
  induction L with
  | zero =>
    apply List.sum_eq_zero
    intro x hx
    obtain ⟨t, ht, rfl⟩ := List.mem_map.mp hx
    have h0 : 0 - t = 0 := by omega
    rw [h0, Nat.div_eq_of_lt (by omega : 0 + (W - 1) < W)]
  | succ L ihL =>
    have hmap : (List.range W).map (fun t => (L + 1 - t + (W - 1)) / W)
        = (List.range W).map
            (fun t => (L - t + (W - 1)) / W + (if t = L % W then 1 else 0)) := by
      apply List.map_congr_left
      intro t ht
      exact stripe_count_succ W L t hW (List.mem_range.mp ht)
    rw [hmap, sum_map_add, ihL, sum_indicator W (L % W) (Nat.mod_lt L hW)]

/-! ## Facts about the function table and the inner loop -/

/-- Both table entries use the radius-2 escape predicate. -/
theorem pfuncs_escape_eq (i : ℕ) :
    (pfuncs i).pfunc_escape = xy_radius_greater_than_2 := by
  unfold pfuncs
  split <;> rfl

/-- Neither step function touches the escaped field. -/
theorem pfuncs_step_escaped (i : ℕ) (p : Iterxy) :
    ((pfuncs i).pfunc p).escaped = p.escaped := by
  unfold pfuncs
  split <;> simp [mandlebrot, julia]

/-- Both init functions produce a point with escaped = 0. -/
theorem pfuncs_init_escaped (i : ℕ) (xy seed : Ldxy) :
    ((pfuncs i).pfunc_init xy seed).escaped = 0 := by
  unfold pfuncs
  split <;> simp [iterxy_init_xy, iterxy_init_zero_mandlebrot_trapped,
    iterxy_init_zero] <;> split <;> simp

/-- The inner loop does not touch a point that has already escaped. -/
theorem ipLoop_frozen (pesc : Ldxy → Bool) (pf : Iterxy → Iterxy)
    (it rem i : ℕ) (p : Iterxy) (h : p.escaped ≠ 0) :
    ipLoop pesc pf it rem i p = p := by
  cases rem <;> simp [ipLoop, h]

/-- Starting from an unescaped point, the inner loop either leaves it
unescaped or marks it escaped with a squared radius above 4 and an escape
index of at most it + i + rem. -/
theorem ipLoop_escape_spec (pf : Iterxy → Iterxy)
    (hpf : ∀ q, (pf q).escaped = q.escaped) (it : ℕ) :
    ∀ (rem i : ℕ) (p : Iterxy), p.escaped = 0 →
      (ipLoop xy_radius_greater_than_2 pf it rem i p).escaped = 0 ∨
        (4 < radius_squared (ipLoop xy_radius_greater_than_2 pf it rem i p).z ∧
         (ipLoop xy_radius_greater_than_2 pf it rem i p).escaped ≤ it + i + rem) := by
  intro rem
  induction rem with
  | zero =>
    intro i p hp
    left
    simpa [ipLoop] using hp
  | succ rem ih =>
    intro i p hp
    rw [ipLoop, if_neg (by simp [hp])]
    by_cases hesc : xy_radius_greater_than_2 p.z = true
    · rw [if_pos hesc]
      right
      constructor
      · have := of_decide_eq_true hesc
        simpa using this
      · show it + i + 1 ≤ it + i + (rem + 1)
        omega
    · rw [if_neg hesc]
      have hp2 : (pf p).escaped = 0 := by rw [hpf]; exact hp
      rcases ih (i + 1) (pf p) hp2 with h | h
      · exact Or.inl h
      · exact Or.inr ⟨h.1, by omega⟩

/-! ## Counter bookkeeping of one batch -/

/-- Each step of the context loop accounts exactly one live entry to exactly
one of the two local counters. -/
theorem ctxStep_count (live : List ℕ) (pesc : Ldxy → Bool)
    (pf : Iterxy → Iterxy) (it steps off : ℕ) (s : CtxRunState) (j : ℕ) :
    (ctxStep live pesc pf it steps off s j).local_escaped +
      (ctxStep live pesc pf it steps off s j).local_not_escaped
      = s.local_escaped + s.local_not_escaped + 1 := by
  simp only [ctxStep]
  by_cases h : (ipLoop pesc pf it steps 0
      (s.all_points.getD (live.getD j 0) default)).escaped = 0
  · rw [if_neg (show ¬ (ipLoop pesc pf it steps 0
        (s.all_points.getD (live.getD j 0) default)).escaped ≠ 0 from
      fun hc => hc h)]
    dsimp only
    omega
  · rw [if_pos h]
    dsimp only
    omega

/-- A fold whose every step adds k to a measure adds length * k in total. -/
theorem foldl_measure_addk {α σ : Type} (f : σ → ℕ) (k : ℕ)
    (step : σ → α → σ) (h : ∀ s a, f (step s a) = f s + k) :
    ∀ (l : List α) (s : σ), f (l.foldl step s) = f s + l.length * k := by
  intro l
  induction l with
  | nil => intro s; simp
  | cons a l ih =>
    intro s
    rw [List.foldl_cons, ih (step s a), h s a, List.length_cons, Nat.succ_mul]
    omega

/-- The two local counters of a finished context sum to the stripe length. -/
theorem with_context_counts (plane : CoordinatePlane) (ctx : IterCtx)
    (hW : 0 < ctx.step_size) :
    (coordinate_plane_iterate_with_context plane ctx).2.local_escaped +
      (coordinate_plane_iterate_with_context plane ctx).2.local_not_escaped
      = (plane.not_escaped - ctx.offset + (ctx.step_size - 1)) / ctx.step_size := by
  unfold coordinate_plane_iterate_with_context
  have hlen := strideIdxList_length ctx.step_size hW plane.not_escaped
    ctx.offset plane.not_escaped (Nat.sub_le _ _)
  have hfold := foldl_measure_addk
    (fun s : CtxRunState => s.local_escaped + s.local_not_escaped) 1
    (fun s j =>
      ctxStep plane.points_not_escaped (pfuncs plane.pfuncs_idx).pfunc_escape
        (pfuncs plane.pfuncs_idx).pfunc plane.iteration_count ctx.steps
        ctx.scratch_offset s j)
    (fun s j => ctxStep_count _ _ _ _ _ _ s j)
    (strideIdxList ctx.step_size plane.not_escaped ctx.offset plane.not_escaped)
    ⟨plane.all_points, plane.scratch, 0, 0⟩
  simpa [hlen] using hfold

/-- Field equations of one merge step, all definitional. -/
theorem update_from_fields (pl : CoordinatePlane) (c : IterCtx) :
    (coordinate_plane_update_from_iterate_context pl c).escaped
        = pl.escaped + c.local_escaped
    ∧ (coordinate_plane_update_from_iterate_context pl c).not_escaped
        = pl.not_escaped + c.local_not_escaped
    ∧ (coordinate_plane_update_from_iterate_context pl c).trapped = pl.trapped
    ∧ (coordinate_plane_update_from_iterate_context pl c).iteration_count
        = pl.iteration_count
    ∧ (coordinate_plane_update_from_iterate_context pl c).win_width
        = pl.win_width
    ∧ (coordinate_plane_update_from_iterate_context pl c).win_height
        = pl.win_height
    ∧ (coordinate_plane_update_from_iterate_context pl c).halt_after
        = pl.halt_after
    ∧ (coordinate_plane_update_from_iterate_context pl c).all_points
        = pl.all_points :=
  ⟨rfl, rfl, rfl, rfl, rfl, rfl, rfl, rfl⟩

/-- The merge fold adds up the local counters and leaves every other plane
field alone. -/
theorem merge_fold_fields :
    ∀ (cs : List IterCtx) (pl : CoordinatePlane),
      (cs.foldl coordinate_plane_update_from_iterate_context pl).escaped
          = pl.escaped + (cs.map (fun c => c.local_escaped)).sum
      ∧ (cs.foldl coordinate_plane_update_from_iterate_context pl).not_escaped
          = pl.not_escaped + (cs.map (fun c => c.local_not_escaped)).sum
      ∧ (cs.foldl coordinate_plane_update_from_iterate_context pl).trapped
          = pl.trapped
      ∧ (cs.foldl coordinate_plane_update_from_iterate_context pl).iteration_count
          = pl.iteration_count
      ∧ (cs.foldl coordinate_plane_update_from_iterate_context pl).win_width
          = pl.win_width
      ∧ (cs.foldl coordinate_plane_update_from_iterate_context pl).win_height
          = pl.win_height
      ∧ (cs.foldl coordinate_plane_update_from_iterate_context pl).halt_after
          = pl.halt_after
      ∧ (cs.foldl coordinate_plane_update_from_iterate_context pl).all_points
          = pl.all_points := by
  intro cs
  induction cs with
  | nil => intro pl; simp
  | cons c cs ih =>
    intro pl
    rw [List.foldl_cons]
    obtain ⟨h1, h2, h3, h4, h5, h6, h7, h8⟩ :=
      ih (coordinate_plane_update_from_iterate_context pl c)
    obtain ⟨u1, u2, u3, u4, u5, u6, u7, u8⟩ := update_from_fields pl c
    rw [h1, h2, h3, h4, h5, h6, h7, h8, u1, u2, u3, u4, u5, u6, u7, u8]
    simp
    constructor <;> omega

/-- Folding the per-thread phase over any list of thread indices produces the
contexts of those stripes, whose total account is the sum of stripe lengths. -/
theorem multiPhase_fold_counts (plane : CoordinatePlane) (steps W : ℕ)
    (hW : 0 < W) :
    ∀ (ts : List ℕ) (acc : List Iterxy × List ℕ × List IterCtx),
      (((ts.foldl (multiPhase plane steps W) acc).2.2.map
          (fun c => c.local_escaped + c.local_not_escaped)).sum)
        = ((acc.2.2.map (fun c => c.local_escaped + c.local_not_escaped)).sum)
          + ((ts.map (fun t =>
              (plane.not_escaped - t + (W - 1)) / W)).sum) := by
  intro ts
  induction ts with
  | nil => intro acc; simp
  | cons t ts ih =>
    intro acc
    rw [List.foldl_cons, ih]
    have hstep :
        (((multiPhase plane steps W acc t).2.2.map
            (fun c => c.local_escaped + c.local_not_escaped)).sum)
          = ((acc.2.2.map (fun c => c.local_escaped + c.local_not_escaped)).sum)
            + (plane.not_escaped - t + (W - 1)) / W := by
      have hc := with_context_counts
        { plane with all_points := acc.1, scratch := acc.2.1 }
        (coordinate_plane_iterate_context_init plane steps t W) hW
      simp only [multiPhase, List.map_append, List.sum_append]
      simpa using hc
    rw [hstep]
    simp
    omega

/-- The counter budget of one threaded batch: trapped, the iteration count
and the window stay put, and the batch converts live entries into escaped
plus surviving entries, conserving their sum. -/
theorem multi_threaded_counts (plane : CoordinatePlane) (steps : ℕ) :
    (coordinate_plane_iterate_multi_threaded plane steps).escaped
        + (coordinate_plane_iterate_multi_threaded plane steps).not_escaped
      = plane.escaped + plane.not_escaped
    ∧ (coordinate_plane_iterate_multi_threaded plane steps).trapped
      = plane.trapped
    ∧ (coordinate_plane_iterate_multi_threaded plane steps).iteration_count
      = plane.iteration_count
    ∧ (coordinate_plane_iterate_multi_threaded plane steps).win_width
      = plane.win_width
    ∧ (coordinate_plane_iterate_multi_threaded plane steps).win_height
      = plane.win_height
    ∧ (coordinate_plane_iterate_multi_threaded plane steps).halt_after
      = plane.halt_after := by
  unfold coordinate_plane_iterate_multi_threaded
  by_cases hW : plane.num_threads < 2
  · rw [if_pos hW]
    have hc2 : (coordinate_plane_iterate_with_context plane
          (coordinate_plane_iterate_context_init plane steps 0 1)).2.local_escaped
        + (coordinate_plane_iterate_with_context plane
          (coordinate_plane_iterate_context_init plane steps 0 1)).2.local_not_escaped
        = plane.not_escaped := by
      have hc := with_context_counts plane
        (coordinate_plane_iterate_context_init plane steps 0 1)
        (show (0 : ℕ) < 1 from Nat.one_pos)
      simpa [coordinate_plane_iterate_context_init] using hc
    refine ⟨?_, rfl, rfl, rfl, rfl, rfl⟩
    show (plane.escaped
        + (coordinate_plane_iterate_with_context plane
            (coordinate_plane_iterate_context_init plane steps 0 1)).2.local_escaped)
      + (0 + (coordinate_plane_iterate_with_context plane
            (coordinate_plane_iterate_context_init plane steps 0 1)).2.local_not_escaped)
      = plane.escaped + plane.not_escaped
    omega
  · rw [if_neg hW]
    have hWpos : 0 < plane.num_threads := by omega
    have hphase := multiPhase_fold_counts plane steps plane.num_threads hWpos
      (List.range plane.num_threads) (plane.all_points, plane.scratch, [])
    have htotal := stripe_counts_total plane.num_threads hWpos plane.not_escaped
    obtain ⟨h1, h2, h3, h4, h5, h6, h7, _⟩ := merge_fold_fields
      ((List.range plane.num_threads).foldl
        (multiPhase plane steps plane.num_threads)
        (plane.all_points, plane.scratch, [])).2.2
      { plane with
        all_points := ((List.range plane.num_threads).foldl
          (multiPhase plane steps plane.num_threads)
          (plane.all_points, plane.scratch, [])).1
        , scratch := ((List.range plane.num_threads).foldl
          (multiPhase plane steps plane.num_threads)
          (plane.all_points, plane.scratch, [])).2.1
        , not_escaped := 0 }
    refine ⟨?_, by simpa using h3, by simpa using h4, by simpa using h5,
      by simpa using h6, by simpa using h7⟩
    rw [h1, h2]
    simp only [List.map_nil, List.sum_nil, Nat.zero_add] at hphase
    rw [htotal] at hphase
    have hsplit := sum_map_add
      (((List.range plane.num_threads).foldl
        (multiPhase plane steps plane.num_threads)
        (plane.all_points, plane.scratch, [])).2.2)
      (fun c => c.local_escaped) (fun c => c.local_not_escaped)
    simp
    omega

/-- A property of every element and of the default holds for any getD read. -/
theorem getD_forall {α : Type} (P : α → Prop) :
    ∀ (l : List α) (i : ℕ) (d : α), (∀ x ∈ l, P x) → P d → P (l.getD i d) := by
  intro l
  induction l with
  | nil => intro i d _ hd; simpa using hd
  | cons a l ih =>
    intro i d hl hd
    cases i with
    | zero => simpa using hl a (by simp)
    | succ i =>
      simp only [List.getD_cons_succ]
      exact ih i d (fun x hx => hl x (by simp [hx])) hd

/-- Each reset cell accounts its pixel to exactly one of trapped and
not_escaped. -/
theorem resetCell_measure (w : ℕ) (x_min y_max rx ry : ℚ)
    (pfi : Ldxy → Ldxy → Iterxy) (seed : Ldxy) (py px : ℕ) (acc : ResetAcc) :
    (resetCell w x_min y_max rx ry pfi seed py px acc).trap
      + (resetCell w x_min y_max rx ry pfi seed py px acc).notesc
      = acc.trap + acc.notesc + 1 := by
  simp only [resetCell]
  split <;> dsimp only <;> omega

/-- Each reset cell appends one point with escaped = 0 (both init functions
zero the field). -/
theorem resetCell_points (w : ℕ) (x_min y_max rx ry : ℚ) (idx : ℕ)
    (seed : Ldxy) (py px : ℕ) (acc : ResetAcc)
    (hacc : ∀ x ∈ acc.all, x.escaped = 0) :
    ∀ x ∈ (resetCell w x_min y_max rx ry ((pfuncs idx).pfunc_init)
        seed py px acc).all, x.escaped = 0 := by
  simp only [resetCell]
  split <;> dsimp only <;>
    (intro x hx
     rcases List.mem_append.mp hx with hmem | hnew
     · exact hacc x hmem
     · rw [List.mem_singleton.mp hnew]
       exact pfuncs_init_escaped idx _ _)

/-- The double reset loop accounts every one of the h * w pixels to exactly
one of the two counters. -/
theorem resetFold_measure (w h : ℕ) (x_min y_max rx ry : ℚ) (idx : ℕ)
    (seed : Ldxy) (acc0 : ResetAcc) :
    ((List.range h).foldl (fun acc py =>
        (List.range w).foldl (fun acc px =>
          resetCell w x_min y_max rx ry ((pfuncs idx).pfunc_init)
            seed py px acc) acc) acc0).trap
      + ((List.range h).foldl (fun acc py =>
        (List.range w).foldl (fun acc px =>
          resetCell w x_min y_max rx ry ((pfuncs idx).pfunc_init)
            seed py px acc) acc) acc0).notesc
      = acc0.trap + acc0.notesc + h * w := by
  have hrow : ∀ (s : ResetAcc) (py : ℕ),
      (fun acc : ResetAcc => acc.trap + acc.notesc)
        ((List.range w).foldl (fun acc px =>
          resetCell w x_min y_max rx ry ((pfuncs idx).pfunc_init)
            seed py px acc) s)
      = (fun acc : ResetAcc => acc.trap + acc.notesc) s + w := by
    intro s py
    have := foldl_measure_addk (fun acc : ResetAcc => acc.trap + acc.notesc)
      1 (fun acc px => resetCell w x_min y_max rx ry
        ((pfuncs idx).pfunc_init) seed py px acc)
      (fun s a => resetCell_measure w x_min y_max rx ry _ seed py a s)
      (List.range w) s
    simpa using this
  have hall := foldl_measure_addk (fun acc : ResetAcc => acc.trap + acc.notesc)
    w (fun acc py => (List.range w).foldl (fun acc px =>
      resetCell w x_min y_max rx ry ((pfuncs idx).pfunc_init)
        seed py px acc) acc)
    hrow (List.range h) acc0
  simpa [Nat.mul_comm] using hall

/-- Every point written by the reset loops has escaped = 0. -/
theorem resetFold_points (w h : ℕ) (x_min y_max rx ry : ℚ) (idx : ℕ)
    (seed : Ldxy) (acc0 : ResetAcc) (h0 : ∀ x ∈ acc0.all, x.escaped = 0) :
    ∀ x ∈ ((List.range h).foldl (fun acc py =>
        (List.range w).foldl (fun acc px =>
          resetCell w x_min y_max rx ry ((pfuncs idx).pfunc_init)
            seed py px acc) acc) acc0).all, x.escaped = 0 := by
  apply foldlPreserves (fun acc : ResetAcc => ∀ x ∈ acc.all, x.escaped = 0)
  · intro s py hs
    apply foldlPreserves (fun acc : ResetAcc => ∀ x ∈ acc.all, x.escaped = 0)
    · intro s2 px hs2
      exact resetCell_points w x_min y_max rx ry idx seed py px s2 hs2
    · exact hs
  · exact h0

/-- What a successful reset guarantees: zeroed counters, the pixel partition
between trapped and live, every point unescaped, and the carried-over
configuration fields. -/
theorem reset_spec {plane : CoordinatePlane} {w h : ℕ} {center : Ldxy}
    {rx ry : ℚ} {idx : ℕ} {seed : Ldxy} {q : CoordinatePlane}
    (hq : coordinate_plane_reset plane w h center rx ry idx seed = some q) :
    q.escaped = 0 ∧ q.iteration_count = 0
      ∧ q.trapped + q.not_escaped = q.win_width * q.win_height
      ∧ (∀ i, (q.all_points.getD i default).escaped = 0)
      ∧ q.halt_after = plane.halt_after
      ∧ q.win_width = w ∧ q.win_height = h := by
  unfold coordinate_plane_reset at hq
  split at hq
  · exact absurd hq (by simp)
  split at hq
  · exact absurd hq (by simp)
  injection hq with hq
  subst hq
  refine ⟨rfl, rfl, ?_, ?_, rfl, rfl, rfl⟩
  · have key := resetFold_measure w h
      (center.x - rx * ((w / 2 : ℕ) : ℚ)) (center.y + ry * ((h / 2 : ℕ) : ℚ))
      rx ry idx seed ⟨[], List.replicate (w * h) 0, 0, 0⟩
    simpa [coordinate_plane_x_min, coordinate_plane_y_max, Nat.mul_comm]
      using key
  · intro i
    apply getD_forall (fun x : Iterxy => x.escaped = 0)
    · have key2 := resetFold_points w h
        (center.x - rx * ((w / 2 : ℕ) : ℚ)) (center.y + ry * ((h / 2 : ℕ) : ℚ))
        rx ry idx seed ⟨[], List.replicate (w * h) 0, 0, 0⟩ (by simp)
      simpa [coordinate_plane_x_min, coordinate_plane_y_max] using key2
    · rfl

/-- When the clamped batch is empty or no live points remain, iterate
returns the plane unchanged with zero newly escaped. -/
theorem iterate_skip (plane : CoordinatePlane) (steps : ℕ)
    (h : ¬(coordinate_plane_clamp_steps plane steps ≠ 0
        ∧ plane.not_escaped ≠ 0)) :
    coordinate_plane_iterate plane steps = (plane, 0) := by
  simp only [coordinate_plane_iterate]
  rw [if_neg h]
  simp

/-- One iterate call preserves the pixel partition between the three
counters. -/
theorem iterate_preserves_counts (plane : CoordinatePlane) (steps : ℕ)
    (h : plane.escaped + plane.trapped + plane.not_escaped
      = plane.win_width * plane.win_height) :
    (coordinate_plane_iterate plane steps).1.escaped
      + (coordinate_plane_iterate plane steps).1.trapped
      + (coordinate_plane_iterate plane steps).1.not_escaped
      = (coordinate_plane_iterate plane steps).1.win_width
        * (coordinate_plane_iterate plane steps).1.win_height := by
  by_cases hgo : coordinate_plane_clamp_steps plane steps ≠ 0
      ∧ plane.not_escaped ≠ 0
  · simp only [coordinate_plane_iterate]
    rw [if_pos hgo]
    obtain ⟨m1, m2, m3, m4, m5, m6⟩ :=
      multi_threaded_counts plane (coordinate_plane_clamp_steps plane steps)
    split <;> (dsimp only; rw [m2, m4, m5]; omega)
  · rw [iterate_skip plane steps hgo]
    simpa using h

/-- The counter partition holds in every reachable plane state. -/
theorem counts_invariant (p : CoordinatePlane) (hp : PlaneReachable p) :
    p.escaped + p.trapped + p.not_escaped = p.win_width * p.win_height := by
  induction hp with
  | reset hq =>
    obtain ⟨e0, _, hpart, _, _, _, _⟩ := reset_spec hq
    omega
  | iterate steps hp ih => exact iterate_preserves_counts _ _ ih
  | threads_more hp ih => simpa [coordinate_plane_threads_more] using ih
  | threads_less hp ih =>
    unfold coordinate_plane_threads_less
    split <;> simpa using ih

/-! ## Per-point analysis of a batch -/

/-- The whole effect of one batch on one point: the inner loop, run with the
escape predicate and step function of the selected variant.  A point is
touched once per occurrence of its pointer in the live list, so the batch
applies this function some number of times to each point. -/
def batchPointStep (pidx it steps : ℕ) (q : Iterxy) : Iterxy :=
  ipLoop (pfuncs pidx).pfunc_escape (pfuncs pidx).pfunc it steps 0 q

/-- The per-point invariant: an escaped point records a squared radius
beyond 4 and an escape index within the iteration budget. -/
def PointInv (it : ℕ) (x : Iterxy) : Prop :=
  x.escaped ≠ 0 → 4 < radius_squared x.z ∧ x.escaped ≤ it

/-- An escaped point is a fixed point of the batch step. -/
theorem batchPointStep_frozen (pidx it steps : ℕ) (x : Iterxy)
    (hx : x.escaped ≠ 0) : batchPointStep pidx it steps x = x :=
  ipLoop_frozen _ _ _ _ _ _ hx

/-- The batch step preserves the per-point invariant at budget it + steps. -/
theorem batchPointStep_inv (pidx it steps : ℕ) (x : Iterxy)
    (hx : PointInv (it + steps) x) :
    PointInv (it + steps) (batchPointStep pidx it steps x) := by
  unfold batchPointStep
  rw [pfuncs_escape_eq]
  by_cases hz : x.escaped = 0
  · rcases ipLoop_escape_spec ((pfuncs pidx).pfunc) (pfuncs_step_escaped pidx)
      it steps 0 x hz with h | h
    · intro hne
      exact absurd h hne
    · intro _
      exact ⟨h.1, by omega⟩
  · rw [ipLoop_frozen _ _ _ _ _ _ hz]
    exact hx

/-- Fixed points stay fixed under any number of applications. -/
theorem iterate_pow_fix {f : Iterxy → Iterxy}
    (hf : ∀ x, x.escaped ≠ 0 → f x = x) (k : ℕ) (x : Iterxy)
    (hx : x.escaped ≠ 0) : f^[k] x = x := by
  induction k with
  | zero => simp
  | succ k ih => rw [Function.iterate_succ_apply, hf x hx]; exact ih

/-- An invariant of f is an invariant of every power of f. -/
theorem iterate_pow_pred {f : Iterxy → Iterxy} (P : Iterxy → Prop)
    (hf : ∀ x, P x → P (f x)) (k : ℕ) (x : Iterxy) :
    P x → P (f^[k] x) := by
  induction k generalizing x with
  | zero => intro hx; simpa using hx
  | succ k ih =>
    intro hx
    rw [Function.iterate_succ_apply]
    exact ih (f x) (hf x hx)

/-- The array written by one context step: the point at the fetched live
index, advanced by one application of the batch step. -/
theorem ctxStep_all_points (pidx : ℕ) (live : List ℕ) (it steps off : ℕ)
    (s : CtxRunState) (j : ℕ) :
    (ctxStep live (pfuncs pidx).pfunc_escape (pfuncs pidx).pfunc
        it steps off s j).all_points
      = s.all_points.set (live.getD j 0)
        (batchPointStep pidx it steps
          (s.all_points.getD (live.getD j 0) default)) := by
  simp only [ctxStep, batchPointStep]
  split <;> rfl

/-- Through one context step, every cell of the point array remains a power
of the batch step applied to its original content. -/
theorem ctxStep_upd (ap0 : List Iterxy) (pidx : ℕ) (live : List ℕ)
    (it steps off : ℕ) (s : CtxRunState) (j : ℕ)
    (hs : ∀ i, ∃ k, s.all_points.getD i default
        = (batchPointStep pidx it steps)^[k] (ap0.getD i default)) :
    ∀ i, ∃ k, (ctxStep live (pfuncs pidx).pfunc_escape (pfuncs pidx).pfunc
        it steps off s j).all_points.getD i default
      = (batchPointStep pidx it steps)^[k] (ap0.getD i default) := by
  intro i
  rw [ctxStep_all_points, getD_set]
  split
  · next hcond =>
    obtain ⟨k, hk⟩ := hs (live.getD j 0)
    refine ⟨k + 1, ?_⟩
    rw [hk, ← Function.iterate_succ_apply' (batchPointStep pidx it steps) k]
    rw [hcond.1]
  · exact hs i

/-- Through one whole context run, every cell of the point array remains a
power of the batch step applied to its original content. -/
theorem with_context_upd (plane : CoordinatePlane) (ctx : IterCtx)
    (ap0 : List Iterxy)
    (h0 : ∀ i, ∃ k, plane.all_points.getD i default
        = (batchPointStep plane.pfuncs_idx plane.iteration_count
            ctx.steps)^[k] (ap0.getD i default)) :
    ∀ i, ∃ k, (coordinate_plane_iterate_with_context plane ctx).1.all_points.getD
        i default
      = (batchPointStep plane.pfuncs_idx plane.iteration_count
          ctx.steps)^[k] (ap0.getD i default) := by
  have key := foldlPreserves
    (fun s : CtxRunState => ∀ i, ∃ k, s.all_points.getD i default
      = (batchPointStep plane.pfuncs_idx plane.iteration_count
          ctx.steps)^[k] (ap0.getD i default))
    (fun s j =>
      ctxStep plane.points_not_escaped (pfuncs plane.pfuncs_idx).pfunc_escape
        (pfuncs plane.pfuncs_idx).pfunc plane.iteration_count ctx.steps
        ctx.scratch_offset s j)
    (fun s j hsj => ctxStep_upd ap0 plane.pfuncs_idx plane.points_not_escaped
      plane.iteration_count ctx.steps ctx.scratch_offset s j hsj)
    (strideIdxList ctx.step_size plane.not_escaped ctx.offset
      plane.not_escaped)
    ⟨plane.all_points, plane.scratch, 0, 0⟩ h0
  exact key

/-- Through a whole threaded batch, every cell of the point array is a power
of the batch step applied to its original content. -/
theorem multi_threaded_upd (plane : CoordinatePlane) (steps : ℕ) :
    ∀ i, ∃ k, (coordinate_plane_iterate_multi_threaded plane
        steps).all_points.getD i default
      = (batchPointStep plane.pfuncs_idx plane.iteration_count
          steps)^[k] (plane.all_points.getD i default) := by
  unfold coordinate_plane_iterate_multi_threaded
  by_cases hW : plane.num_threads < 2
  · rw [if_pos hW]
    intro i
    exact with_context_upd plane
      (coordinate_plane_iterate_context_init plane steps 0 1)
      plane.all_points (fun i => ⟨0, rfl⟩) i
  · rw [if_neg hW]
    intro i
    have key := foldlPreserves
      (fun acc : List Iterxy × List ℕ × List IterCtx =>
        ∀ i, ∃ k, acc.1.getD i default
          = (batchPointStep plane.pfuncs_idx plane.iteration_count
              steps)^[k] (plane.all_points.getD i default))
      (multiPhase plane steps plane.num_threads)
      (fun acc t hacc =>
        with_context_upd
          { plane with all_points := acc.1, scratch := acc.2.1 }
          (coordinate_plane_iterate_context_init plane steps t
            plane.num_threads)
          plane.all_points hacc)
      (List.range plane.num_threads)
      (plane.all_points, plane.scratch, []) (fun i => ⟨0, rfl⟩)
    obtain ⟨_, _, _, _, _, _, _, h8⟩ := merge_fold_fields
      ((List.range plane.num_threads).foldl
        (multiPhase plane steps plane.num_threads)
        (plane.all_points, plane.scratch, [])).2.2
      { plane with
        all_points := ((List.range plane.num_threads).foldl
          (multiPhase plane steps plane.num_threads)
          (plane.all_points, plane.scratch, [])).1
        , scratch := ((List.range plane.num_threads).foldl
          (multiPhase plane steps plane.num_threads)
          (plane.all_points, plane.scratch, [])).2.1
        , not_escaped := 0 }
    rw [h8]
    exact key i

/-- Through one iterate call, every cell of the point array is a power of
the batch step (at the clamped step count) applied to its original content. -/
theorem iterate_upd (plane : CoordinatePlane) (steps0 : ℕ) :
    ∀ i, ∃ k, (coordinate_plane_iterate plane steps0).1.all_points.getD
        i default
      = (batchPointStep plane.pfuncs_idx plane.iteration_count
          (coordinate_plane_clamp_steps plane steps0))^[k]
        (plane.all_points.getD i default) := by
  intro i
  by_cases hgo : coordinate_plane_clamp_steps plane steps0 ≠ 0
      ∧ plane.not_escaped ≠ 0
  · simp only [coordinate_plane_iterate]
    rw [if_pos hgo]
    split <;>
      (dsimp only
       exact multi_threaded_upd plane
         (coordinate_plane_clamp_steps plane steps0) i)
  · rw [iterate_skip plane steps0 hgo]
    exact ⟨0, rfl⟩

/-- When work happens, the iteration count advances by exactly the clamped
batch size. -/
theorem iterate_iteration_count_go (plane : CoordinatePlane) (steps0 : ℕ)
    (hgo : coordinate_plane_clamp_steps plane steps0 ≠ 0
      ∧ plane.not_escaped ≠ 0) :
    (coordinate_plane_iterate plane steps0).1.iteration_count
      = plane.iteration_count + coordinate_plane_clamp_steps plane steps0 := by
  simp only [coordinate_plane_iterate]
  rw [if_pos hgo]
  obtain ⟨_, _, m3, _, _, _⟩ :=
    multi_threaded_counts plane (coordinate_plane_clamp_steps plane steps0)
  split <;> (dsimp only; rw [m3])

/-- iterate never changes halt_after. -/
theorem iterate_halt_after (plane : CoordinatePlane) (steps0 : ℕ) :
    (coordinate_plane_iterate plane steps0).1.halt_after
      = plane.halt_after := by
  by_cases hgo : coordinate_plane_clamp_steps plane steps0 ≠ 0
      ∧ plane.not_escaped ≠ 0
  · simp only [coordinate_plane_iterate]
    rw [if_pos hgo]
    obtain ⟨_, _, _, _, _, m6⟩ :=
      multi_threaded_counts plane (coordinate_plane_clamp_steps plane steps0)
    split <;> (dsimp only; rw [m6])
  · rw [iterate_skip plane steps0 hgo]

/-- The per-point invariant holds at every reachable state: whenever escaped
is nonzero, the recorded z lies beyond the escape radius and the escape
index is at most the iteration count. -/
theorem reachable_point_inv (p : CoordinatePlane) (hp : PlaneReachable p) :
    ∀ i, PointInv p.iteration_count (p.all_points.getD i default) := by
  induction hp with
  | reset hq =>
    obtain ⟨_, _, _, hpts, _, _, _⟩ := reset_spec hq
    intro i hne
    exact absurd (hpts i) hne
  | @iterate q steps hq ih =>
    by_cases hgo : coordinate_plane_clamp_steps q steps ≠ 0
        ∧ q.not_escaped ≠ 0
    · intro i
      rw [iterate_iteration_count_go q steps hgo]
      obtain ⟨k, hk⟩ := iterate_upd q steps i
      rw [hk]
      apply iterate_pow_pred
        (PointInv (q.iteration_count + coordinate_plane_clamp_steps q steps))
        (fun x hx => batchPointStep_inv q.pfuncs_idx q.iteration_count
          (coordinate_plane_clamp_steps q steps) x hx) k
      intro hne
      obtain ⟨h1, h2⟩ := ih i hne
      exact ⟨h1, by omega⟩
    · rw [iterate_skip q steps hgo]
      exact ih
  | threads_more hq ih => simpa [coordinate_plane_threads_more] using ih
  | threads_less hq ih =>
    unfold coordinate_plane_threads_less
    split <;> simpa using ih

/-- Once a point has escaped, an iterate call does not modify it at all. -/
theorem iterate_frozen (plane : CoordinatePlane) (steps0 i : ℕ)
    (h : (plane.all_points.getD i default).escaped ≠ 0) :
    (coordinate_plane_iterate plane steps0).1.all_points.getD i default
      = plane.all_points.getD i default := by
  obtain ⟨k, hk⟩ := iterate_upd plane steps0 i
  rw [hk]
  exact iterate_pow_fix
    (fun x hx => batchPointStep_frozen plane.pfuncs_idx plane.iteration_count
      (coordinate_plane_clamp_steps plane steps0) x hx) k _ h

/-- The clamped batch never pushes the iteration count past the halt
bound. -/
theorem clamp_bound (p : CoordinatePlane) (steps0 : ℕ)
    (hh : p.halt_after ≠ 0) (hle : p.iteration_count ≤ p.halt_after) :
    p.iteration_count + coordinate_plane_clamp_steps p steps0
      ≤ p.halt_after := by
  simp only [coordinate_plane_clamp_steps, if_pos hh]
  split_ifs <;> omega

/-- With a halt bound set, the iteration count never exceeds it. -/
theorem halt_invariant (p : CoordinatePlane) (hp : PlaneReachable p) :
    p.halt_after ≠ 0 → p.iteration_count ≤ p.halt_after := by
  induction hp with
  | reset hq =>
    obtain ⟨_, hit, _, _, _, _, _⟩ := reset_spec hq
    intro _
    omega
  | @iterate q steps hq ih =>
    intro hh
    have hhq : q.halt_after ≠ 0 := by
      rwa [iterate_halt_after q steps] at hh
    have hle := ih hhq
    by_cases hgo : coordinate_plane_clamp_steps q steps ≠ 0
        ∧ q.not_escaped ≠ 0
    · rw [iterate_iteration_count_go q steps hgo, iterate_halt_after q steps]
      exact clamp_bound q steps hhq hle
    · rw [iterate_skip q steps hgo]
      exact hle
  | threads_more hq ih => simpa [coordinate_plane_threads_more] using ih
  | threads_less hq ih =>
    unfold coordinate_plane_threads_less
    split <;> simpa using ih

/-- A call requesting at least the remaining budget, on a plane with live
points, lands the iteration count exactly on the halt bound. -/
theorem iterate_hits_halt (p : CoordinatePlane) (steps0 : ℕ)
    (hal : p.halt_after ≠ 0) (hle : p.iteration_count ≤ p.halt_after)
    (hlive : p.not_escaped ≠ 0)
    (hreq : p.halt_after - p.iteration_count ≤ steps0) :
    (coordinate_plane_iterate p steps0).1.iteration_count = p.halt_after := by
  by_cases hdone : p.iteration_count = p.halt_after
  · have hclamp : coordinate_plane_clamp_steps p steps0 = 0 := by
      simp only [coordinate_plane_clamp_steps, if_pos hal]
      split_ifs <;> omega
    rw [iterate_skip p steps0 (by simp [hclamp])]
    exact hdone
  · have hlt : p.iteration_count < p.halt_after := by omega
    have hclamp : coordinate_plane_clamp_steps p steps0
        = p.halt_after - p.iteration_count := by
      simp only [coordinate_plane_clamp_steps, if_pos hal]
      split_ifs <;> omega
    rw [iterate_iteration_count_go p steps0
      (by rw [hclamp]; exact ⟨by omega, hlive⟩), hclamp]
    omega

/-- Configuration fields of a successful reset: the given centre and
resolutions are stored verbatim, and both resolutions passed the positivity
check. -/
theorem reset_config {plane : CoordinatePlane} {w h : ℕ} {center : Ldxy}
    {rx ry : ℚ} {idx : ℕ} {seed : Ldxy} {q : CoordinatePlane}
    (hq : coordinate_plane_reset plane w h center rx ry idx seed = some q) :
    q.center = center ∧ q.resolution_x = rx ∧ q.resolution_y = ry
      ∧ 0 < rx ∧ 0 < ry := by
  unfold coordinate_plane_reset at hq
  split at hq
  · exact absurd hq (by simp)
  rename_i hrx
  split at hq
  · exact absurd hq (by simp)
  rename_i hry
  injection hq with hq
  subst hq
  exact ⟨rfl, rfl, rfl, not_not.mp hrx, not_not.mp hry⟩

/-! ## Concrete scenario planes -/

/-- Unwrap an optional plane, as scenario glue. -/
def planeOfOpt (o : Option CoordinatePlane) : CoordinatePlane := o.getD default

/-- A 5 by 1 Mandelbrot plane centred at (1/2, 0) with resolution 1/10: the
five coordinates are 3/10, 2/5, 1/2, 3/5 and 7/10, none trapped, escaping
after 13, 8, 6, 5 and 4 total iterations respectively. -/
def c4Base (nthreads : ℕ) : CoordinatePlane :=
  planeOfOpt (coordinate_plane_reset
    { (default : CoordinatePlane) with halt_after := 0, num_threads := nthreads }
    5 1 ⟨1/2, 0⟩ (1/10) (1/10) 0 ⟨0, 0⟩)

/-- Run n iterate calls of 3 steps each. -/
def iterBatches : ℕ → CoordinatePlane → CoordinatePlane
  | 0, p => p
  | n + 1, p => iterBatches n (coordinate_plane_iterate p 3).1

/-- Two batches of three steps on the 5 by 1 plane. -/
def c4Run (nthreads : ℕ) : CoordinatePlane := iterBatches 2 (c4Base nthreads)

theorem iterBatches_reachable :
    ∀ (n : ℕ) (p : CoordinatePlane), PlaneReachable p →
      PlaneReachable (iterBatches n p) := by
  intro n
  induction n with
  | zero => intro p hp; exact hp
  | succ n ih => intro p hp; exact ih _ (PlaneReachable.iterate 3 hp)

theorem c4Base1_reachable : PlaneReachable (c4Base 1) :=
  PlaneReachable.reset (show coordinate_plane_reset
    { (default : CoordinatePlane) with halt_after := 0, num_threads := 1 }
    5 1 ⟨1/2, 0⟩ (1/10) (1/10) 0 ⟨0, 0⟩ = some (c4Base 1)
    from by with_unfolding_all decide)

theorem c4Base2_reachable : PlaneReachable (c4Base 2) :=
  PlaneReachable.reset (show coordinate_plane_reset
    { (default : CoordinatePlane) with halt_after := 0, num_threads := 2 }
    5 1 ⟨1/2, 0⟩ (1/10) (1/10) 0 ⟨0, 0⟩ = some (c4Base 2)
    from by with_unfolding_all decide)

/-- The two contexts of the first 2-thread batch on the 5 by 1 plane. -/
def c5ctx0 : IterCtx := coordinate_plane_iterate_context_init (c4Base 2) 3 0 2

def c5ctx1 : IterCtx := coordinate_plane_iterate_context_init (c4Base 2) 3 1 2

/-- Thread 0 of that batch, run on the fresh plane. -/
def c5run0 : CoordinatePlane × IterCtx :=
  coordinate_plane_iterate_with_context (c4Base 2) c5ctx0

/-- Thread 1, run after thread 0 (the linearisation in which the later
thread writes the contested scratch cell last). -/
def c5run1 : CoordinatePlane × IterCtx :=
  coordinate_plane_iterate_with_context
    { (c4Base 2) with all_points := c5run0.1.all_points,
                      scratch := c5run0.1.scratch } c5ctx1

/-- A 1 by 1 Mandelbrot plane whose only point is the origin, which lies in
the main cardioid: the live list is empty from the start.  halt_after is
10. -/
def c3Trap : CoordinatePlane :=
  planeOfOpt (coordinate_plane_reset
    { (default : CoordinatePlane) with halt_after := 10, num_threads := 1 }
    1 1 ⟨0, 0⟩ 1 1 0 ⟨0, 0⟩)

/-- A 1 by 1 Julia plane with one live point and halt_after 10. -/
def c3Live : CoordinatePlane :=
  planeOfOpt (coordinate_plane_reset
    { (default : CoordinatePlane) with halt_after := 10, num_threads := 1 }
    1 1 ⟨0, 0⟩ 1 1 1 ⟨0, 0⟩)

theorem c3Live_reachable : PlaneReachable c3Live :=
  PlaneReachable.reset (show coordinate_plane_reset
    { (default : CoordinatePlane) with halt_after := 10, num_threads := 1 }
    1 1 ⟨0, 0⟩ 1 1 1 ⟨0, 0⟩ = some c3Live
    from by with_unfolding_all decide)

/-- A 1 by 1 Julia plane whose point starts at z = c = (3, 0), beyond the
escape radius: it escapes at the first check of the first batch. -/
def c2Wit : CoordinatePlane :=
  planeOfOpt (coordinate_plane_reset
    { (default : CoordinatePlane) with halt_after := 0, num_threads := 1 }
    1 1 ⟨3, 0⟩ 1 1 1 ⟨0, 0⟩)

/-- The plane after one 4-step batch on that point. -/
def c2After : CoordinatePlane := (coordinate_plane_iterate c2Wit 4).1

theorem c2After_reachable : PlaneReachable c2After :=
  PlaneReachable.iterate 4
    (PlaneReachable.reset (show coordinate_plane_reset
      { (default : CoordinatePlane) with halt_after := 0, num_threads := 1 }
      1 1 ⟨3, 0⟩ 1 1 1 ⟨0, 0⟩ = some c2Wit
      from by with_unfolding_all decide))

/-- A 1 by 1 Julia plane with resolution exactly 1, the zoom round-trip
start state. -/
def c8Start : CoordinatePlane :=
  planeOfOpt (coordinate_plane_reset
    { (default : CoordinatePlane) with halt_after := 0, num_threads := 1 }
    1 1 ⟨0, 0⟩ 1 1 1 ⟨0, 0⟩)

def c8P1 : CoordinatePlane := planeOfOpt (coordinate_plane_zoom_in c8Start)

def c8P2 : CoordinatePlane := planeOfOpt (coordinate_plane_zoom_out c8P1)

/-- A reset with positive resolutions succeeds, returning the unwrapped
value. -/
theorem reset_isSome (plane : CoordinatePlane) (w h : ℕ) (center : Ldxy)
    (rx ry : ℚ) (idx : ℕ) (seed : Ldxy) (hx : 0 < rx) (hy : 0 < ry) :
    coordinate_plane_reset plane w h center rx ry idx seed
      = some (planeOfOpt
          (coordinate_plane_reset plane w h center rx ry idx seed)) := by
  unfold coordinate_plane_reset
  rw [if_neg (not_not_intro hx), if_neg (not_not_intro hy)]
  simp [planeOfOpt]

theorem c8Start_resolution : c8Start.resolution_x = 1 ∧
    c8Start.resolution_y = 1 := by
  have h := reset_config (q := c8Start) (reset_isSome
    { (default : CoordinatePlane) with halt_after := 0, num_threads := 1 }
    1 1 ⟨0, 0⟩ 1 1 1 ⟨0, 0⟩ (by norm_num) (by norm_num))
  exact ⟨h.2.1, h.2.2.1⟩

theorem c8_zoom_in_eq : coordinate_plane_zoom_in c8Start = some c8P1 := by
  unfold coordinate_plane_zoom_in c8P1
  apply reset_isSome
  · rw [c8Start_resolution.1]
    norm_num [zoom_in_ratio]
  · rw [c8Start_resolution.2]
    norm_num [zoom_in_ratio]

theorem c8_zoom_out_eq : coordinate_plane_zoom_out c8P1 = some c8P2 := by
  have h := reset_config (show coordinate_plane_reset c8Start
      c8Start.win_width c8Start.win_height c8Start.center
      (c8Start.resolution_x * zoom_in_ratio)
      (c8Start.resolution_y * zoom_in_ratio)
      c8Start.pfuncs_idx c8Start.seed = some c8P1 from c8_zoom_in_eq)
  unfold coordinate_plane_zoom_out c8P2
  apply reset_isSome
  · rw [h.2.1]
    exact mul_pos h.2.2.2.1 (by norm_num [zoom_out_ratio])
  · rw [h.2.2.1]
    exact mul_pos h.2.2.2.2 (by norm_num [zoom_out_ratio])

/-- An idle 4-worker pool with an empty queue. -/
def c6Pool : BasicThreadPool :=
  { stop := false, todo_jobs := [], num_working := 0, threads_len := 4 }

/-! ## The claims -/

/-- C1: after coordinate_plane_reset (and hence after new, pan, zoom,
recenter, resize and next-function, which all delegate to reset) and after
every coordinate_plane_iterate call, the counters partition the pixels:
escaped + trapped + not_escaped equals win_width * win_height.  In this
model the live list is the first not_escaped entries of the live buffer, so
not_escaped is by construction the live-list length. -/
theorem C1_counters_partition (p : CoordinatePlane) (hp : PlaneReachable p) :
    p.escaped + p.trapped + p.not_escaped = p.win_width * p.win_height :=
  counts_invariant p hp

set_option maxRecDepth 100000 in
theorem C1_counters_partition_witness :
    (c4Run 2).escaped + (c4Run 2).trapped + (c4Run 2).not_escaped
      = (c4Run 2).win_width * (c4Run 2).win_height :=
  C1_counters_partition (c4Run 2)
    (iterBatches_reachable 2 (c4Base 2) c4Base2_reachable)

/-- C2: across any sequence of iterate calls after a reset, a point whose
escaped field is nonzero satisfies the radius condition and the iteration
bound, and a further iterate call leaves such a point entirely untouched
(in particular its escaped field never changes again).  The radius
condition holds in every reachable state, hence in particular in the state
right after the batch that set it. -/
theorem C2_escape_invariants (p : CoordinatePlane) (hp : PlaneReachable p) :
    (∀ i, (p.all_points.getD i default).escaped ≠ 0 →
        4 < radius_squared (p.all_points.getD i default).z
        ∧ (p.all_points.getD i default).escaped ≤ p.iteration_count)
    ∧ (∀ steps i, (p.all_points.getD i default).escaped ≠ 0 →
        (coordinate_plane_iterate p steps).1.all_points.getD i default
          = p.all_points.getD i default) :=
  ⟨reachable_point_inv p hp, fun steps i h => iterate_frozen p steps i h⟩

set_option maxRecDepth 100000 in
theorem C2_escape_invariants_witness :
    4 < radius_squared ((c2After.all_points.getD 0 default).z)
    ∧ (c2After.all_points.getD 0 default).escaped
      ≤ c2After.iteration_count :=
  (C2_escape_invariants c2After c2After_reachable).1 0
    (by with_unfolding_all decide)

set_option maxRecDepth 100000 in
/-- C3 counterexample: on a 1 by 1 Mandelbrot plane whose only point is
trapped, halt_after is 10 and 20 steps are requested, more than the 10 that
remain, yet iteration_count stays at 0 instead of advancing to 10, because
an empty live list skips the whole batch. -/
theorem C3_halt_counterexample :
    c3Trap.halt_after = 10
    ∧ c3Trap.iteration_count = 0
    ∧ c3Trap.not_escaped = 0
    ∧ (coordinate_plane_iterate c3Trap 20).1.iteration_count = 0
    ∧ (coordinate_plane_iterate c3Trap 20).1.iteration_count
        ≠ c3Trap.halt_after := by
  with_unfolding_all decide

/-- C3 amended: with halt_after = N, N nonzero, the iteration count of a
reachable plane never exceeds N, and a call requesting at least the
remaining budget advances it to exactly N provided the live list is
nonempty (with an empty live list the call does no work at all and the
iteration count does not advance). -/
theorem C3_halt_clamp_amended (p : CoordinatePlane) (hp : PlaneReachable p)
    (N : ℕ) (hN : p.halt_after = N) (hN0 : N ≠ 0) :
    p.iteration_count ≤ N
    ∧ (∀ steps, N - p.iteration_count ≤ steps → p.not_escaped ≠ 0 →
        (coordinate_plane_iterate p steps).1.iteration_count = N) := by
  subst hN
  refine ⟨halt_invariant p hp hN0, fun steps hs hl => ?_⟩
  exact iterate_hits_halt p steps hN0 (halt_invariant p hp hN0) hl hs

set_option maxRecDepth 100000 in
theorem C3_halt_clamp_amended_witness :
    c3Live.iteration_count ≤ 10
    ∧ (coordinate_plane_iterate c3Live 20).1.iteration_count = 10 := by
  have h := C3_halt_clamp_amended c3Live c3Live_reachable 10
    (by with_unfolding_all decide) (by decide)
  exact ⟨h.1, h.2 20 (by with_unfolding_all decide)
    (by with_unfolding_all decide)⟩

set_option maxRecDepth 1000000 in
/-- C4: identically reset 5 by 1 Mandelbrot planes, run through the same
two iterate(3) calls with 1 and with 2 worker threads, disagree on the
per-pixel escaped values: pixel 4 escapes at iteration 4 single-threaded
but is lost from the live list by the overlapping scratch slices and stays
at 0 with two threads, and pixel 1, still live after 6 iterations in the
single-threaded run, is duplicated in the live list, gets stepped twice in
the second batch, and records escape index 5. -/
theorem C4_thread_count_divergence :
    coordinate_plane_escaped (c4Run 1) 4 0 = 4
    ∧ coordinate_plane_escaped (c4Run 2) 4 0 = 0
    ∧ coordinate_plane_escaped (c4Run 1) 1 0 = 0
    ∧ coordinate_plane_escaped (c4Run 2) 1 0 = 5
    ∧ ¬ (∀ x y, coordinate_plane_escaped (c4Run 1) x y
          = coordinate_plane_escaped (c4Run 2) x y) := by
  have h1 : coordinate_plane_escaped (c4Run 1) 4 0 = 4 := by
    with_unfolding_all decide
  have h2 : coordinate_plane_escaped (c4Run 2) 4 0 = 0 := by
    with_unfolding_all decide
  refine ⟨h1, h2, by with_unfolding_all decide, by with_unfolding_all decide,
    fun hall => ?_⟩
  have := hall 4 0
  omega

set_option maxRecDepth 100000 in
/-- C5: on the 5 by 1 plane with 2 worker threads and a full live list of 5
entries, the scratch slice of thread 0 starts at 0 and the slice of thread
1 starts at 2 = scratch_len / W, yet thread 0 has 3 = live.len / W + 1
surviving points, one more than its 2-cell slice holds: it writes scratch
cell 2, which thread 1 then overwrites.  The slices do overlap, and a slice
holds only scratch_len / W entries, less than the live.len / W + 1 the
claim asserts. -/
theorem C5_scratch_overlap :
    c5ctx0.scratch_offset = 0
    ∧ c5ctx1.scratch_offset = 2
    ∧ (c4Base 2).not_escaped = 5
    ∧ c5run0.2.local_not_escaped = 3
    ∧ (c4Base 2).scratch.length / 2 = 2
    ∧ ¬ (c4Base 2).not_escaped / 2 + 1 ≤ (c4Base 2).scratch.length / 2
    ∧ c5run0.1.scratch.getD 2 0 = 4
    ∧ c5run1.1.scratch.getD 2 0 = 1 := by
  with_unfolding_all decide

/-- C6 counterexample: a pool whose stop flag has been raised (the state
reached inside stop_and_free after draining the queue) still accepts a job:
add returns 0 and enqueues it, because basic_thread_pool_add never reads
the stop flag. -/
theorem C6_add_ignores_stop_counterexample :
    (basic_thread_pool_stop_marked c6Pool).stop = true
    ∧ (basic_thread_pool_add (basic_thread_pool_stop_marked c6Pool) 7 true).1
        = 0
    ∧ (basic_thread_pool_add
        (basic_thread_pool_stop_marked c6Pool) 7 true).2.todo_jobs = [7] := by
  decide

/-- C6 amended: basic_thread_pool_add does not consult the stop flag.  It
returns nonzero exactly when the queue-node allocation fails (leaving the
pool untouched), and otherwise appends the job at the tail and returns 0,
whatever the stop flag holds.  After basic_thread_pool_stop_and_free
returns, the pool storage is freed and the caller-side pointer is nulled,
so no add can be issued against a freed pool; the guard the spec describes
is not implemented in add itself. -/
theorem C6_add_amended (pool : BasicThreadPool) (job : ℕ) :
    (basic_thread_pool_add pool job false).1 = 1
    ∧ (basic_thread_pool_add pool job false).2 = pool
    ∧ (basic_thread_pool_add pool job true).1 = 0
    ∧ (basic_thread_pool_add pool job true).2.todo_jobs
        = pool.todo_jobs ++ [job]
    ∧ (basic_thread_pool_add pool job true).2.stop = pool.stop := by
  refine ⟨rfl, rfl, rfl, rfl, rfl⟩

/-- C7: when the clamped step count is zero or the live list is empty,
coordinate_plane_iterate returns zero newly escaped and the plane value is
returned unchanged in every field, counters, live buffer and points
included. -/
theorem C7_no_work_frame (p : CoordinatePlane) (steps : ℕ)
    (h : coordinate_plane_clamp_steps p steps = 0 ∨ p.not_escaped = 0) :
    coordinate_plane_iterate p steps = (p, 0) := by
  apply iterate_skip
  rcases h with h | h <;> simp [h]

set_option maxRecDepth 100000 in
theorem C7_no_work_frame_witness :
    coordinate_plane_iterate c3Trap 7 = (c3Trap, 0) :=
  C7_no_work_frame c3Trap 7 (Or.inr (by with_unfolding_all decide))

/-- C8 counterexample: starting from resolution exactly 1, zoom-in followed
by zoom-out yields resolution 18014398509481985 / 2^54 = 1 + 2^(-54), not
1: the factors do not compose to exactly 1, because the C literal 0.8 is a
double constant whose value is 7205759403792794 / 2^53, not 4/5. -/
theorem C8_zoom_roundtrip_counterexample :
    c8Start.resolution_x = 1
    ∧ coordinate_plane_zoom_in c8Start = some c8P1
    ∧ coordinate_plane_zoom_out c8P1 = some c8P2
    ∧ c8P2.resolution_x = 18014398509481985 / 2 ^ 54
    ∧ c8P2.resolution_x ≠ c8Start.resolution_x := by
  have h1 := reset_config (show coordinate_plane_reset c8Start
      c8Start.win_width c8Start.win_height c8Start.center
      (c8Start.resolution_x * zoom_in_ratio)
      (c8Start.resolution_y * zoom_in_ratio)
      c8Start.pfuncs_idx c8Start.seed = some c8P1 from c8_zoom_in_eq)
  have h2 := reset_config (show coordinate_plane_reset c8P1
      c8P1.win_width c8P1.win_height c8P1.center
      (c8P1.resolution_x * zoom_out_ratio)
      (c8P1.resolution_y * zoom_out_ratio)
      c8P1.pfuncs_idx c8P1.seed = some c8P2 from c8_zoom_out_eq)
  have hval : c8P2.resolution_x = 18014398509481985 / 2 ^ 54 := by
    rw [h2.2.1, h1.2.1, c8Start_resolution.1]
    norm_num [zoom_in_ratio, zoom_out_ratio]
  refine ⟨c8Start_resolution.1, c8_zoom_in_eq, c8_zoom_out_eq, hval, ?_⟩
  rw [hval, c8Start_resolution.1]
  norm_num

/-- C8 amended: zoom-in followed by zoom-out leaves the centre unchanged
but does not restore the resolutions: it multiplies both by
zoom_in_ratio * zoom_out_ratio = (7205759403792794 / 2^53) * (5/4), which
is exactly 1 + 2^(-54), so the resolutions always come back strictly
changed. -/
theorem C8_zoom_roundtrip_amended (p p1 p2 : CoordinatePlane)
    (h1 : coordinate_plane_zoom_in p = some p1)
    (h2 : coordinate_plane_zoom_out p1 = some p2) :
    p2.center = p.center
    ∧ p2.resolution_x = p.resolution_x * (zoom_in_ratio * zoom_out_ratio)
    ∧ p2.resolution_y = p.resolution_y * (zoom_in_ratio * zoom_out_ratio)
    ∧ zoom_in_ratio * zoom_out_ratio = 1 + 1 / 2 ^ 54
    ∧ p2.resolution_x ≠ p.resolution_x := by
  obtain ⟨c1, r1x, r1y, hpos1x, hpos1y⟩ := reset_config h1
  obtain ⟨c2, r2x, r2y, hpos2x, hpos2y⟩ := reset_config h2
  have hprod : zoom_in_ratio * zoom_out_ratio = 1 + 1 / 2 ^ 54 := by
    norm_num [zoom_in_ratio, zoom_out_ratio]
  have hrx0 : p.resolution_x ≠ 0 := by
    intro h0
    rw [h0, zero_mul] at hpos1x
    exact lt_irrefl 0 hpos1x
  have hresx : p2.resolution_x
      = p.resolution_x * (zoom_in_ratio * zoom_out_ratio) := by
    rw [r2x, r1x]
    ring
  refine ⟨by rw [c2, c1], hresx, by rw [r2y, r1y]; ring, hprod, ?_⟩
  rw [hresx, hprod]
  intro hcon
  have hcon2 : p.resolution_x * (1 + 1 / 2 ^ 54)
      = p.resolution_x * 1 := by rw [hcon, mul_one]
  have := mul_left_cancel₀ hrx0 hcon2
  norm_num at this

theorem C8_zoom_roundtrip_amended_witness :
    c8P2.center = c8Start.center
    ∧ c8P2.resolution_x
        = c8Start.resolution_x * (zoom_in_ratio * zoom_out_ratio)
    ∧ c8P2.resolution_y
        = c8Start.resolution_y * (zoom_in_ratio * zoom_out_ratio)
    ∧ zoom_in_ratio * zoom_out_ratio = 1 + 1 / 2 ^ 54
    ∧ c8P2.resolution_x ≠ c8Start.resolution_x :=
  C8_zoom_roundtrip_amended c8Start c8P1 c8P2 c8_zoom_in_eq c8_zoom_out_eq

/-- C9: coordinate_plane_not_escaped_count returns the live counter (the
live-list length) plus the trapped counter, and in every reachable state
the escaped and not-escaped totals printed on the status line sum to
win_width * win_height. -/
theorem C9_not_escaped_count_total (p : CoordinatePlane)
    (hp : PlaneReachable p) :
    coordinate_plane_not_escaped_count p = p.not_escaped + p.trapped
    ∧ coordinate_plane_escaped_count p + coordinate_plane_not_escaped_count p
      = p.win_width * p.win_height := by
  refine ⟨rfl, ?_⟩
  have h := counts_invariant p hp
  unfold coordinate_plane_escaped_count coordinate_plane_not_escaped_count
  omega

set_option maxRecDepth 100000 in
theorem C9_not_escaped_count_total_witness :
    coordinate_plane_not_escaped_count (c4Run 1)
      = (c4Run 1).not_escaped + (c4Run 1).trapped
    ∧ coordinate_plane_escaped_count (c4Run 1)
      + coordinate_plane_not_escaped_count (c4Run 1)
      = (c4Run 1).win_width * (c4Run 1).win_height :=
  C9_not_escaped_count_total (c4Run 1)
    (iterBatches_reachable 2 (c4Base 1) c4Base1_reachable)

/-- C10: provided prefix_black is at most the reallocated length
len + amount, every store grow_palette performs is to an index below
len + amount; the black-prefix loop writes only indices below prefix_black.
The second conjunct records the caller: pixel_buffer_new builds its palette
as grow_palette from length 0 with the user-supplied skip_rounds as the
black prefix and the palette length 1024 passed by the mains as the growth
amount, with no check of skip_rounds against it. -/
theorem C10_grow_palette_writes_bounded (len prefix_black amount : ℕ)
    (h : prefix_black ≤ len + amount) :
    (∀ i ∈ growPaletteWriteIdxs len prefix_black amount, i < len + amount)
    ∧ (∀ skip_rounds, pixelBufferNewPaletteWriteIdxs mains_palette_len
        skip_rounds = growPaletteWriteIdxs 0 skip_rounds 1024) := by
  constructor
  · intro i hi
    unfold growPaletteWriteIdxs at hi
    rcases (List.mem_append).mp hi with hm | hm
    · have hb := List.mem_range'_1.mp hm
      omega
    · have hb := List.mem_range'_1.mp hm
      have hmax1 : len ≤ max len prefix_black := Nat.le_max_left _ _
      have hmax2 : max len prefix_black ≤ len + amount :=
        Nat.max_le.mpr ⟨by omega, h⟩
      omega
  · intro skip
    rfl

theorem C10_grow_palette_writes_bounded_witness :
    (3 : ℕ) ≤ 0 + 1024
    ∧ ∀ i ∈ growPaletteWriteIdxs 0 3 1024, i < 0 + 1024 :=
  ⟨by norm_num,
   (C10_grow_palette_writes_bounded 0 3 1024 (by norm_num)).1⟩
